import Mathlib

/-!
Verification of the VolumeMigration repository's shell-safety layer,
host-key verification, migration orchestration, and space estimation.

Strings are modelled as Lean `String`s; character-level algorithms work on
`String.data` (`List Char`). Go's `strings.ReplaceAll`, `strings.Contains`
and `strings.HasPrefix` are embedded as structurally recursive list
functions that follow Go's left-to-right, non-overlapping semantics.
-/

namespace VolumeMigration

/-! ## ShellSafety — internal/shell/escape.go -/

/-- `isSafeChar` embeds the character class accepted by `isSafeString` in
`escape.go`: letters, digits, `-`, `_`, `.`, `/`. -/
def isSafeChar (c : Char) : Bool :=
  (decide ('a' ≤ c) && decide (c ≤ 'z')) ||
  (decide ('A' ≤ c) && decide (c ≤ 'Z')) ||
  (decide ('0' ≤ c) && decide (c ≤ '9')) ||
  c == '-' || c == '_' || c == '.' || c == '/'

/-- `hasDotDot l` embeds `strings.Contains(s, "..")`: true iff two
consecutive `'.'` characters occur somewhere in `l`. -/
def hasDotDot : List Char → Bool
  | [] => false
  | [_] => false
  | a :: b :: rest => (a == '.' && b == '.') || hasDotDot (b :: rest)

/-- `isSafeString` from `escape.go`: non-empty, no `..` substring, and every
character in the safe class. -/
def isSafeString (s : List Char) : Bool :=
  !s.isEmpty && !hasDotDot s && s.all isSafeChar

/-- Embeds `strings.ReplaceAll(s, "'", "'\\''")` from `ShellEscape`: every
single quote becomes close-quote, backslash-escaped quote, reopen-quote. -/
def escapeQuotes : List Char → List Char
  | [] => []
  | c :: rest =>
      if c = '\'' then '\'' :: '\\' :: '\'' :: '\'' :: escapeQuotes rest
      else c :: escapeQuotes rest

/-- `ShellEscape` from `escape.go` on character lists: safe strings pass
through unchanged, everything else is wrapped in single quotes with embedded
quotes escaped. -/
def shellEscapeL (s : List Char) : List Char :=
  if isSafeString s then s else '\'' :: (escapeQuotes s ++ ['\''])

/-- `ShellEscape` from `internal/shell/escape.go`. -/
def ShellEscape (s : String) : String :=
  ⟨shellEscapeL s.data⟩

/-- Character class of `ValidateVolumeName`: letters, digits, `-`, `_`, `.`
(no slash). -/
def isVolumeNameChar (c : Char) : Bool :=
  (decide ('a' ≤ c) && decide (c ≤ 'z')) ||
  (decide ('A' ≤ c) && decide (c ≤ 'Z')) ||
  (decide ('0' ≤ c) && decide (c ≤ '9')) ||
  c == '-' || c == '_' || c == '.'

/-- `ValidateVolumeName` from `internal/shell/escape.go`: non-empty, at most
255 bytes, first character not `-` or `.`, no `..`, no `/`, no `\`, and only
characters from the allowed class. (Go checks the byte length and the first
byte; this model checks the UTF-8 byte size and the first character, which
agree on ASCII input.) -/
def ValidateVolumeName (s : String) : Bool :=
  let l := s.data
  !l.isEmpty && decide (s.utf8ByteSize ≤ 255) &&
  (match l.head? with
   | some c => !(c == '-' || c == '.')
   | none => false) &&
  !hasDotDot l && !l.contains '/' && !l.contains '\\' &&
  l.all isVolumeNameChar

/-- Embeds `strings.ReplaceAll(path, "..", "")` from `SanitizePathForRemote`:
left-to-right, non-overlapping removal of `..`. -/
def removeDotDot : List Char → List Char
  | [] => []
  | [c] => [c]
  | c :: d :: rest =>
      if c = '.' then
        if d = '.' then removeDotDot rest
        else c :: removeDotDot (d :: rest)
      else c :: removeDotDot (d :: rest)

/-- Embeds `strings.HasPrefix(path, "/")` plus the conditional prepend from
`SanitizePathForRemote`. -/
def ensureAbs (s : List Char) : List Char :=
  if s.head? = some '/' then s else '/' :: s

/-- Embeds one round of `strings.ReplaceAll(path, "//", "/")`: left-to-right,
non-overlapping replacement. -/
def collapseOnce : List Char → List Char
  | [] => []
  | [c] => [c]
  | c :: d :: rest =>
      if c = '/' then
        if d = '/' then '/' :: collapseOnce rest
        else c :: collapseOnce (d :: rest)
      else c :: collapseOnce (d :: rest)

/-- Embeds `strings.Contains(path, "//")`. -/
def hasSlashSlash : List Char → Bool
  | [] => false
  | [_] => false
  | a :: b :: rest => (a == '/' && b == '/') || hasSlashSlash (b :: rest)

/-- The `for strings.Contains(path, "//")` loop of `SanitizePathForRemote`,
run with explicit fuel. Each iteration of the Go loop strictly shortens the
string, so `s.length` iterations always suffice to reach the loop's exit
condition (proved in `hasSlashSlash_collapseFuel` below). -/
def collapseFuel : Nat → List Char → List Char
  | 0, s => s
  | n + 1, s => if hasSlashSlash s then collapseFuel n (collapseOnce s) else s

/-- The fully-applied `//`-collapsing loop of `SanitizePathForRemote`. -/
def collapseSlashes (s : List Char) : List Char :=
  collapseFuel s.length s

/-- `SanitizePathForRemote` from `internal/shell/escape.go` on character
lists: strip `..`, force a leading `/`, collapse runs of `/`. -/
def sanitizePathL (s : List Char) : List Char :=
  collapseSlashes (ensureAbs (removeDotDot s))

/-- `SanitizePathForRemote` from `internal/shell/escape.go`. -/
def SanitizePathForRemote (s : String) : String :=
  ⟨sanitizePathL s.data⟩

/-! ## POSIX single-token shell parse

Modelled from the spec: the remote POSIX shell that consumes the escaped
strings is external to this repository.  The spec describes the relevant
fragment: a single token is read left to right; outside quotes a backslash
escapes the next character, a single quote opens a quoted span, and shell
metacharacters end (here: reject) the token; inside single quotes every
character up to the closing quote is literal.  The parse fails on an
unterminated quote or a trailing backslash. -/

/-- Modelled from the spec: characters that a POSIX shell treats specially
outside quotes, so an unquoted occurrence is not a literal single token. -/
def shellMetaChars : List Char :=
  [' ', '\t', '\n', ';', '&', '|', '<', '>', '(', ')', '$', '\"', '\x60',
   '#', '*', '?', '[', ']', '~', '\x7b', '\x7d']

/-- Modelled from the spec: is `c` a shell metacharacter outside quotes? -/
def shellMeta (c : Char) : Bool :=
  shellMetaChars.contains c

/-- Modelled from the spec: parse one POSIX shell token.  The first argument
is the mode: `false` = outside quotes, `true` = inside single quotes.
Returns the bytes the shell would hand to the command, or `none` if the
input is not a single well-formed token. -/
def parseTok : Bool → List Char → Option (List Char)
  | false, [] => some []
  | false, c :: rest =>
      if c = '\'' then parseTok true rest
      else if c = '\\' then
        match rest with
        | [] => none
        | d :: rest2 => (parseTok false rest2).map (d :: ·)
      else if shellMeta c then none
      else (parseTok false rest).map (c :: ·)
  | true, [] => none
  | true, c :: rest =>
      if c = '\'' then parseTok false rest
      else (parseTok true rest).map (c :: ·)

/-! ## HostTrustStore — internal/ssh/hostkey.go

The trust file is modelled as a list of `(hostname, key)` records; the key
field stands for the key-type + base64 material of one `known_hosts` line. -/

/-- Modelled from the spec: the verdict of the external known-hosts checker
(`golang.org/x/crypto/ssh/knownhosts`, outside this repository), described in
§4.3 of the spec: success when the hostname has a matching record; a
key-mismatch error (a `KeyError` with non-empty `Want`) when the hostname has
records but none matches the presented key; an unknown-host error (`KeyError`
with empty `Want`) when the hostname has no record at all. -/
inductive KnownHostsResult
  | ok
  | keyChanged
  | unknownHost
deriving DecidableEq

/-- Modelled from the spec: the callback produced by `knownhosts.New`,
evaluated against the records of the trust file. -/
def knownHostsCheck (store : List (String × String)) (hostname key : String) :
    KnownHostsResult :=
  if (hostname, key) ∈ store then .ok
  else if store.any (fun r => r.1 == hostname) then .keyChanged
  else .unknownHost

/-- The key-rotation (MITM) error message built in `acceptNewKeyCallback`
(hostkey.go:100-105). The trailing fragment stands for the wrapped (`%w`)
error text of the underlying known-hosts checker. -/
def keyChangedMessage (hostname knownHostsPath : String) : String :=
  "WARNING: REMOTE HOST IDENTIFICATION HAS CHANGED!\n" ++
  "IT IS POSSIBLE THAT SOMEONE IS DOING SOMETHING NASTY!\n" ++
  "Host key for " ++ hostname ++ " has changed.\n" ++
  "Remove old key from " ++ knownHostsPath ++ " and try again.\n" ++
  "Or use ssh-keygen -R " ++ hostname ++ "\n" ++
  "knownhosts: key mismatch"

/-- Result of one invocation of the accept-new host-key callback: the
verification result and the trust-file contents after the call. -/
structure HostKeyOutcome where
  result : Except String Unit
  store : List (String × String)

/-- The closure returned by `acceptNewKeyCallback` (hostkey.go:92-120),
evaluated for one `(hostname, key)` presentation against the current trust
file. Its control flow is embedded exactly: only a non-nil error from the
underlying checker enters the `if err != nil` block (key-change rejection or
unknown-host append via `addHostKey`); when the underlying checker succeeds
(`err == nil`) the function falls through to the final
`return fmt.Errorf("unexpected host key verification error for %s: %w", ...)`
(hostkey.go:119), so even a matching known host yields a non-nil error. -/
def acceptNewKeyCallback (knownHostsPath : String) (store : List (String × String))
    (hostname key : String) : HostKeyOutcome :=
  match knownHostsCheck store hostname key with
  | .keyChanged => ⟨.error (keyChangedMessage hostname knownHostsPath), store⟩
  | .unknownHost => ⟨.ok (), store ++ [(hostname, key)]⟩
  | .ok => ⟨.error ("unexpected host key verification error for " ++ hostname), store⟩

/-! ## RemoteSession mutation operations — internal/ssh/client.go -/

/-- The deny-list of `RemoveDirectory` (client.go:184-185); membership in
this list is exactly the chain of `==` comparisons in the source. -/
def sysDirs : List String := ["/", "/bin", "/etc", "/usr", "/var", "/home"]

/-- Oracle for `Client.RunCommand`: the outcome of executing one command
string on the remote host. -/
structure SSHRunEnv where
  runCommand : String → Except String String

/-- Result of a mutation operation together with the remote commands that
were actually executed. -/
structure CommandTrace where
  result : Except String Unit
  executed : List String

/-- `Client.RemoveDirectory` from `internal/ssh/client.go:178-195`:
sanitize, deny-list check on the sanitized path, then build and run
`rm -rf <escaped path>`. -/
def RemoveDirectory (env : SSHRunEnv) (path : String) : CommandTrace :=
  let safePath := SanitizePathForRemote path
  if safePath ∈ sysDirs then
    ⟨.error ("refusing to delete system directory: " ++ safePath), []⟩
  else
    let cmd := "rm -rf " ++ ShellEscape safePath
    match env.runCommand cmd with
    | .error e =>
        ⟨.error ("failed to remove directory " ++ path ++ " on remote host: " ++ e),
         [cmd]⟩
    | .ok _ => ⟨.ok (), [cmd]⟩

/-! ## Volume discovery — internal/docker/volume.go -/

/-- `VolumeInfo` from `internal/docker/volume.go`. -/
structure VolumeInfo where
  name : String
  container : String
  mountPath : String
  size : String
  sizeBytes : Int
  selected : Bool
deriving DecidableEq

/-- Oracle for the runtime-introspection collaborator: `Client.ListVolumes`,
`Client.GetVolumeMountPoints` and `Client.GetVolumeSize`. -/
structure DockerIntrospection where
  listVolumes : String → Except String (List String)
  mountPath : String → String → Except String String
  volumeSize : String → Except String (String × Int)

/-- Builds the `VolumeInfo` record for one volume as `GetAllVolumesInfo`
does (volume.go:92-110): mount-path lookup failures degrade to `"N/A"`,
size lookup failures to `("Unknown", 0)`, `Selected` defaults to true. -/
def mkVolumeInfo (env : DockerIntrospection) (containerName volumeName : String) :
    VolumeInfo :=
  let mp := match env.mountPath containerName volumeName with
    | .ok p => p
    | .error _ => "N/A"
  let sz := match env.volumeSize volumeName with
    | .ok r => r
    | .error _ => ("Unknown", 0)
  ⟨volumeName, containerName, mp, sz.1, sz.2, true⟩

/-- The inner loop of `GetAllVolumesInfo` (volume.go:86-111) for one
container: a volume name already present in the accumulated map is skipped,
otherwise its record is added. The Go map is modelled as a list in insertion
order (the claim-relevant facts — which names appear and with which owning
container — do not depend on the final iteration order). -/
def addContainerVolumes (env : DockerIntrospection) (containerName : String)
    (vols : List String) (acc : List VolumeInfo) : List VolumeInfo :=
  vols.foldl
    (fun acc v =>
      if v ∈ acc.map VolumeInfo.name then acc
      else acc ++ [mkVolumeInfo env containerName v])
    acc

/-- The outer loop of `GetAllVolumesInfo` (volume.go:80-112): containers are
processed in list order; a `ListVolumes` failure aborts the discovery. -/
def getAllVolumesGo (env : DockerIntrospection) :
    List String → List VolumeInfo → Except String (List VolumeInfo)
  | [], acc => .ok acc
  | c :: cs, acc =>
      match env.listVolumes c with
      | .error e => .error ("failed to list volumes for container " ++ c ++ ": " ++ e)
      | .ok vols => getAllVolumesGo env cs (addContainerVolumes env c vols acc)

/-- `Client.GetAllVolumesInfo` from `internal/docker/volume.go:77-121`. -/
def GetAllVolumesInfo (env : DockerIntrospection) (containers : List String) :
    Except String (List VolumeInfo) :=
  getAllVolumesGo env containers []

/-! ## Space estimation — internal/utils/diskspace.go

`CalculateRequiredSpace` computes `int64(float64(v) * 1.10)`. The IEEE-754
binary64 arithmetic is embedded exactly over non-negative dyadic rationals
`num / 2^exp`: each float operation produces the true rational result
rounded to the nearest value with a 53-bit significand (ties to even). The
model covers the values the source can produce here — `0` and positive
magnitudes in the normal binary64 range (volume sizes are non-negative
int64 byte counts); it does not model subnormals, negative zero or
overflow, which the embedded computation never reaches. -/

/-- A non-negative dyadic rational `num / 2^exp`. -/
structure Dyadic where
  num : ℕ
  exp : ℕ
deriving DecidableEq

/-- Bit length of a natural number, fuel-driven (fuel 1100 covers every
number below `2^1100`, far beyond the binary64 range). -/
def bitlenFuel : Nat → Nat → Nat
  | 0, _ => 0
  | fuel + 1, n => if n = 0 then 0 else bitlenFuel fuel (n / 2) + 1

/-- Bit length: `bitlen n = ⌊log₂ n⌋ + 1` for `1 ≤ n < 2^1100`. -/
def bitlen (n : ℕ) : ℕ := bitlenFuel 1100 n

/-- Round `n / 2^s` to the nearest integer, ties to even (the IEEE-754
default rounding, applied to the scaled significand). -/
def roundHalfEvenNat (n s : ℕ) : ℕ :=
  let q := n / 2 ^ s
  let r := n % 2 ^ s
  if 2 * r < 2 ^ s then q
  else if 2 ^ s < 2 * r then q + 1
  else if q % 2 = 0 then q else q + 1

/-- Round a non-negative dyadic to the nearest binary64 value (53
significand bits, ties to even). A value with at most 53 significant bits
is returned unchanged (it is exactly representable). -/
def float64RoundD (d : Dyadic) : Dyadic :=
  if d.num = 0 then ⟨0, 0⟩
  else
    let E : ℤ := (bitlen d.num : ℤ) - 1 - d.exp
    let s : ℤ := (d.exp : ℤ) + E - 52
    if s ≤ 0 then d
    else
      let m := roundHalfEvenNat d.num s.toNat
      if E ≤ 52 then ⟨m, (52 - E).toNat⟩ else ⟨m * 2 ^ (E - 52).toNat, 0⟩

/-- Exact product of two dyadics (binary64 multiplication is this product
rounded by `float64RoundD`). -/
def dyadicMul (a b : Dyadic) : Dyadic := ⟨a.num * b.num, a.exp + b.exp⟩

/-- Go's `int64(x)` conversion of a non-negative `float64`: truncation
toward zero. -/
def dyadicTrunc (d : Dyadic) : ℕ := d.num / 2 ^ d.exp

/-- The binary64 value of the Go constant `1.10` (diskspace.go:98):
`0x3FF199999999999A`, i.e. `4953959590107546 / 2^52` — the binary64 value
closest to 1.1 (see `buffer64_closest`). -/
def buffer64 : Dyadic := ⟨4953959590107546, 52⟩

/-- `CalculateRequiredSpace` from `internal/utils/diskspace.go:89-100`:
`int64(float64(volumeSizeBytes) * 1.10)` under exact binary64 semantics,
for non-negative volume sizes. -/
def CalculateRequiredSpace (volumeSizeBytes : ℕ) : ℕ :=
  dyadicTrunc (float64RoundD (dyadicMul (float64RoundD ⟨volumeSizeBytes, 0⟩) buffer64))

/-- `ValidateDiskSpace` from `internal/utils/diskspace.go:103-111`; the
formatted byte counts embedded in the Go message are elided from the model's
message. -/
def ValidateDiskSpace (location : String) (required available : ℤ) :
    Except String Unit :=
  if available < required then
    .error ("insufficient disk space on " ++ location)
  else .ok ()

/-! ## Import with compensation — internal/migrator/import.go -/

/-- Oracle for the three remote docker commands `ImportVolume` issues:
`volume create`, the populate-from-archive `run`, and the compensating
`volume rm`. -/
structure RemoteDockerEnv where
  createVolume : Except String String
  populateVolume : Except String String
  removeVolume : Except String String

/-- Result of `ImportVolume` plus whether the compensating removal was
attempted and which cleanup failures were logged. -/
structure ImportTrace where
  result : Except String Unit
  removeAttempted : Bool
  logged : List String

/-- `ImportVolume` from `internal/migrator/import.go:13-52`: validate the
name, create the destination volume, populate it; if population fails,
attempt `volume rm` on the just-created volume — a failure of that removal is
only logged (import.go:43-45) — and return the original population error. -/
def ImportVolume (env : RemoteDockerEnv) (volumeName _archivePath : String) :
    ImportTrace :=
  if ValidateVolumeName volumeName then
    match env.createVolume with
    | .error e =>
        ⟨.error ("failed to create volume " ++ volumeName ++ " on remote: " ++ e),
         false, []⟩
    | .ok _ =>
        match env.populateVolume with
        | .error e =>
            ⟨.error ("failed to import data into volume " ++ volumeName ++ ": " ++ e),
             true,
             match env.removeVolume with
             | .error ce => ["Failed to cleanup volume after import failure: " ++ ce]
             | .ok _ => []⟩
        | .ok _ => ⟨.ok (), false, []⟩
  else
    ⟨.error ("invalid volume name '" ++ volumeName ++
      "': must contain only alphanumeric characters, dashes, underscores, and dots"),
     false, []⟩

/-! ## Migration orchestration — internal/migrator/migrator.go

`Migrate` is embedded as a pure function over an oracle recording the
outcome of each external step, returning the result together with a trace of
whether the export phase succeeded, whether the two staging-directory
cleanups ran, and which cleanup failures were logged. -/

/-- The configuration flags of `migrator.Config` that steer `Migrate`'s
control flow. -/
structure MigratorConfig where
  interactive : Bool
  dryRun : Bool
  noCleanup : Bool
  force : Bool

/-- Oracle for the external steps `Migrate` performs, in source order:
Docker client construction, SSH connection, volume discovery, interactive
selection, the two disk-space measurements (`GetLocalDiskSpace` /
`GetRemoteDiskSpace`, returning available bytes), export, transfer, import,
and the two staging-directory cleanups. -/
structure MigrateEnv where
  initDocker : Except String Unit
  connectSSH : Except String Unit
  discover : Except String (List VolumeInfo)
  selectVolumes : List VolumeInfo → Except String (List VolumeInfo)
  localAvail : Except String ℤ
  remoteAvail : Except String ℤ
  exportVols : Except String (List (String × String))
  transfer : List (String × String) → Except String Unit
  importVols : List (String × String) → Except String Unit
  cleanupLocal : Except String Unit
  cleanupRemote : Except String Unit

/-- Trace of one `Migrate` run. -/
structure MigrateTrace where
  result : Except String Unit
  exportOk : Bool
  cleanupLocalRan : Bool
  cleanupRemoteRan : Bool
  cleanupLogged : List String

/-- The body of the deferred cleanup closure (migrator.go:299-307): both
cleanups are attempted and their failures are logged, never returned. -/
def cleanupLog (env : MigrateEnv) : List String :=
  (match env.cleanupLocal with
   | .error e => ["Failed to cleanup local temporary directory: " ++ e]
   | .ok _ => []) ++
  (match env.cleanupRemote with
   | .error e => ["Failed to cleanup remote temporary directory: " ++ e]
   | .ok _ => [])

/-- The Phase-4.5 disk-space validation of `Migrate` (migrator.go:224-276):
required space is `CalculateRequiredSpace` of the summed selected sizes; a
failed measurement is only a warning, a confirmed shortfall on either side is
fatal. -/
def spaceValidation (env : MigrateEnv) (selected : List VolumeInfo) :
    Except String Unit :=
  let required : ℤ := CalculateRequiredSpace
    (selected.foldl (fun (acc : ℤ) (v : VolumeInfo) => acc + v.sizeBytes) 0).toNat
  match
    (match env.localAvail with
     | .error _ => .ok ()
     | .ok avail => ValidateDiskSpace "local" required avail : Except String Unit)
  with
  | .error e => .error e
  | .ok _ =>
      match env.remoteAvail with
      | .error _ => .ok ()
      | .ok avail => ValidateDiskSpace "remote" required avail

/-- `Migrator.Migrate` from `internal/migrator/migrator.go:161-330`. The
deferred cleanup closure is registered only after a successful export
(migrator.go:298-308), so the trace records the cleanups as run exactly on
the exit paths taken after that point. -/
def runMigrate (env : MigrateEnv) (cfg : MigratorConfig) : MigrateTrace :=
  match env.initDocker with
  | .error e => ⟨.error ("failed to initialize Docker client: " ++ e),
      false, false, false, []⟩
  | .ok _ =>
  match env.connectSSH with
  | .error e => ⟨.error ("failed to connect to remote host: " ++ e),
      false, false, false, []⟩
  | .ok _ =>
  match env.discover with
  | .error e => ⟨.error ("failed to discover volumes: " ++ e),
      false, false, false, []⟩
  | .ok volumes =>
  if volumes.isEmpty then
    ⟨.ok (), false, false, false, []⟩
  else
  match (if cfg.interactive then env.selectVolumes volumes else .ok volumes) with
  | .error e => ⟨.error ("volume selection failed: " ++ e), false, false, false, []⟩
  | .ok selected =>
  match (if cfg.force then .ok () else spaceValidation env selected :
      Except String Unit) with
  | .error e => ⟨.error (e ++ " (use --force to override)"), false, false, false, []⟩
  | .ok _ =>
  if cfg.dryRun then
    ⟨.ok (), false, false, false, []⟩
  else
  match env.exportVols with
  | .error e => ⟨.error ("failed to export volumes: " ++ e), false, false, false, []⟩
  | .ok archivePaths =>
  let cl := !cfg.noCleanup
  let logged := if cl then cleanupLog env else []
  match env.transfer archivePaths with
  | .error e => ⟨.error ("failed to transfer volumes: " ++ e), true, cl, cl, logged⟩
  | .ok _ =>
  match env.importVols archivePaths with
  | .error e => ⟨.error ("failed to import volumes: " ++ e), true, cl, cl, logged⟩
  | .ok _ => ⟨.ok (), true, cl, cl, logged⟩

/-- Replace only the two cleanup outcomes of an environment (used to state
that the cleanup outcome never influences `Migrate`'s result). -/
def setCleanup (env : MigrateEnv) (cl cr : Except String Unit) : MigrateEnv :=
  ⟨env.initDocker, env.connectSSH, env.discover, env.selectVolumes,
   env.localAvail, env.remoteAvail, env.exportVols, env.transfer,
   env.importVols, cl, cr⟩

/-! ## Concrete fixtures used by witnesses and counterexamples -/

/-- A remote-command oracle whose every command succeeds with empty output. -/
def okRunEnv : SSHRunEnv := ⟨fun _ => .ok ""⟩

/-- Remote docker oracle: volume creation succeeds, population fails,
compensating removal succeeds. -/
def importFailEnv : RemoteDockerEnv :=
  ⟨.ok "data", .error "tar: short read", .ok "data"⟩

/-- One discovered volume used by the `Migrate` fixtures. -/
def sampleVolume : VolumeInfo := ⟨"data", "web", "/data", "1.0KB", 1024, true⟩

/-- `Migrate` oracle where every step succeeds except the export phase. -/
def exportFailEnv : MigrateEnv :=
  ⟨.ok (), .ok (), .ok [sampleVolume], fun v => .ok v, .ok 1000000000,
   .ok 1000000000, .error "tar: disk full", fun _ => .ok (), fun _ => .ok (),
   .ok (), .ok ()⟩

/-- `Migrate` oracle where every step succeeds except the transfer phase. -/
def transferFailEnv : MigrateEnv :=
  ⟨.ok (), .ok (), .ok [sampleVolume], fun v => .ok v, .ok 1000000000,
   .ok 1000000000, .ok [("data", "/tmp/stage/data.tar.gz")],
   fun _ => .error "connection reset", fun _ => .ok (), .ok (), .ok ()⟩

/-- The flag set of a plain non-interactive run: not interactive, not
dry-run, cleanup enabled, not forced. -/
def plainConfig : MigratorConfig := ⟨false, false, false, false⟩

/-- Introspection fixture: containers `web` and `worker` both reference the
single volume `shared`. -/
def sharedVolEnv : DockerIntrospection :=
  ⟨fun _ => .ok ["shared"], fun _ _ => .ok "/shared",
   fun _ => .ok ("2.0GB", 2147483648)⟩

/-! ### Round-trip of `ShellEscape` through the POSIX single-token parse -/

theorem parseTok_unq_nil : parseTok false [] = some [] := rfl

theorem parseTok_sq_nil : parseTok true [] = none := rfl

theorem parseTok_unq_cons (c : Char) (rest : List Char) :
    parseTok false (c :: rest) =
      if c = '\'' then parseTok true rest
      else if c = '\\' then
        match rest with
        | [] => none
        | d :: rest2 => (parseTok false rest2).map (d :: ·)
      else if shellMeta c then none
      else (parseTok false rest).map (c :: ·) := by
  rw [parseTok.eq_def]

theorem parseTok_sq_cons (c : Char) (rest : List Char) :
    parseTok true (c :: rest) =
      if c = '\'' then parseTok false rest
      else (parseTok true rest).map (c :: ·) := by
  rw [parseTok.eq_def]

theorem shellMeta_not_safe {c : Char} (hm : shellMeta c = true) :
    isSafeChar c = false := by
  have hmem : c ∈ shellMetaChars := by
    simpa [shellMeta, List.contains] using hm
  fin_cases hmem <;> decide

theorem isSafeChar_not_meta {c : Char} (h : isSafeChar c = true) :
    ¬ shellMeta c = true := by
  intro hm
  rw [shellMeta_not_safe hm] at h
  exact Bool.false_ne_true h

theorem isSafeChar_ne_quote {c : Char} (h : isSafeChar c = true) : ¬ c = '\'' := by
  rintro rfl
  exact absurd h (by decide)

theorem isSafeChar_ne_backslash {c : Char} (h : isSafeChar c = true) : ¬ c = '\\' := by
  rintro rfl
  exact absurd h (by decide)

theorem parseTok_safe : ∀ {l : List Char}, l.all isSafeChar = true →
    parseTok false l = some l := by
  intro l
  induction l with
  | nil => intro _; rfl
  | cons c rest ih =>
      intro hall
      rw [List.all_cons, Bool.and_eq_true] at hall
      rw [parseTok_unq_cons, if_neg (isSafeChar_ne_quote hall.1),
        if_neg (isSafeChar_ne_backslash hall.1),
        if_neg (isSafeChar_not_meta hall.1), ih hall.2]
      rfl

theorem parseTok_sq_escapeQuotes (s : List Char) : ∀ rest : List Char,
    parseTok true (escapeQuotes s ++ rest) = (parseTok true rest).map (s ++ ·) := by
  induction s with
  | nil =>
      intro rest
      cases h : parseTok true rest <;> simp [escapeQuotes, h]
  | cons c s ih =>
      intro rest
      by_cases hc : c = '\''
      · subst hc
        rw [escapeQuotes, if_pos rfl]
        show parseTok true ('\'' :: '\\' :: '\'' :: '\'' :: (escapeQuotes s ++ rest)) = _
        rw [parseTok_sq_cons, if_pos rfl, parseTok_unq_cons, if_neg (by decide),
          if_pos rfl]
        show (parseTok false ('\'' :: (escapeQuotes s ++ rest))).map _ = _
        rw [parseTok_unq_cons, if_pos rfl, ih rest]
        cases h : parseTok true rest <;> simp
      · rw [escapeQuotes, if_neg hc]
        show parseTok true (c :: (escapeQuotes s ++ rest)) = _
        rw [parseTok_sq_cons, if_neg hc, ih rest]
        cases h : parseTok true rest <;> simp

theorem shellEscapeL_roundtrip (l : List Char) :
    parseTok false (shellEscapeL l) = some l := by
  rw [shellEscapeL]
  by_cases hs : isSafeString l
  · rw [if_pos hs]
    rw [isSafeString, Bool.and_eq_true, Bool.and_eq_true] at hs
    exact parseTok_safe hs.2
  · rw [if_neg hs, parseTok_unq_cons, if_pos rfl, parseTok_sq_escapeQuotes]
    rw [parseTok_sq_cons, if_pos rfl, parseTok_unq_nil]
    simp

/-- C4. For every string s, parsing escape(s) as a single POSIX-shell token
(single-quote quoting, with the close-quote/escaped-quote/reopen-quote
sequence for embedded single quotes) yields exactly s; in particular
escape("it's a test") parses back to "it's a test". -/
theorem claim4_escape_roundtrip :
    (∀ s : String, parseTok false (ShellEscape s).data = some s.data) ∧
    parseTok false (ShellEscape "it's a test").data = some "it's a test".data := by
  refine ⟨fun s => ?_, by decide⟩
  exact shellEscapeL_roundtrip s.data

/-! ### `SanitizePathForRemote` never leaves or creates `..` -/

theorem hasDotDot_cons₂ (a b : Char) (l : List Char) :
    hasDotDot (a :: b :: l) = ((a == '.' && b == '.') || hasDotDot (b :: l)) := rfl

theorem hasDotDot_cons_ne {c : Char} (hc : ¬ c = '.') (l : List Char) :
    hasDotDot (c :: l) = hasDotDot l := by
  cases l with
  | nil => rfl
  | cons b t =>
      rw [hasDotDot_cons₂]
      have : (c == '.') = false := by simpa using hc
      simp [this]

theorem hasDotDot_iff (l : List Char) :
    hasDotDot l = true ↔ ∃ a b, l = a ++ '.' :: '.' :: b := by
  induction l with
  | nil =>
      simp only [hasDotDot]
      constructor
      · intro h; exact absurd h (by decide)
      · rintro ⟨a, b, h⟩
        exact absurd h.symm (by simp)
  | cons c rest ih =>
      cases rest with
      | nil =>
          simp only [hasDotDot]
          constructor
          · intro h; exact absurd h (by decide)
          · rintro ⟨a, b, h⟩
            rcases a with _ | ⟨x, a⟩
            · exact absurd (congrArg List.length h) (by simp)
            · rcases a with _ | ⟨y, a⟩ <;>
                exact absurd (congrArg List.length h) (by simp)
      | cons d t =>
          rw [hasDotDot_cons₂, Bool.or_eq_true, Bool.and_eq_true, beq_iff_eq,
            beq_iff_eq]
          constructor
          · rintro (⟨rfl, rfl⟩ | h)
            · exact ⟨[], t, rfl⟩
            · obtain ⟨a, b, hab⟩ := (ih).1 h
              exact ⟨c :: a, b, by rw [List.cons_append, hab]⟩
          · rintro ⟨a, b, hab⟩
            rcases a with _ | ⟨x, a⟩
            · simp only [List.nil_append, List.cons.injEq] at hab
              exact Or.inl ⟨hab.1, hab.2.1⟩
            · simp only [List.cons_append, List.cons.injEq] at hab
              exact Or.inr ((ih).2 ⟨a, b, hab.2⟩)

theorem removeDotDot_cons₂ (c d : Char) (l : List Char) :
    removeDotDot (c :: d :: l) =
      if c = '.' then
        if d = '.' then removeDotDot l else c :: removeDotDot (d :: l)
      else c :: removeDotDot (d :: l) := by
  rw [removeDotDot.eq_def]

theorem removeDotDot_cons_ne {c : Char} (hc : ¬ c = '.') (l : List Char) :
    removeDotDot (c :: l) = c :: removeDotDot l := by
  cases l with
  | nil => rfl
  | cons d t => rw [removeDotDot_cons₂, if_neg hc]

theorem hasDotDot_removeDotDot (l : List Char) :
    hasDotDot (removeDotDot l) = false := by
  induction l using removeDotDot.induct with
  | case1 => rfl
  | case2 c => rfl
  | case3 l ih =>
      rw [removeDotDot_cons₂, if_pos rfl, if_pos rfl]
      exact ih
  | case4 d l hd ih =>
      rw [removeDotDot_cons₂, if_pos rfl, if_neg hd, removeDotDot_cons_ne hd]
      rw [removeDotDot_cons_ne hd] at ih
      rw [hasDotDot_cons₂]
      have hdb : (d == '.') = false := by simpa using hd
      simp only [hdb, Bool.and_false, Bool.false_or]
      exact ih
  | case5 c d l hc ih =>
      rw [removeDotDot_cons₂, if_neg hc, hasDotDot_cons_ne hc]
      exact ih

theorem ensureAbs_abs (l : List Char) : ∃ t, ensureAbs l = '/' :: t := by
  rw [ensureAbs]
  by_cases h : l.head? = some '/'
  · rw [if_pos h]
    cases l with
    | nil => exact absurd h (by simp)
    | cons c t =>
        rw [List.head?_cons, Option.some.injEq] at h
        exact ⟨t, by rw [h]⟩
  · rw [if_neg h]
    exact ⟨l, rfl⟩

theorem hasDotDot_ensureAbs (l : List Char) (h : hasDotDot l = false) :
    hasDotDot (ensureAbs l) = false := by
  rw [ensureAbs]
  by_cases hh : l.head? = some '/'
  · rw [if_pos hh]; exact h
  · rw [if_neg hh, hasDotDot_cons_ne (by decide)]; exact h

theorem collapseOnce_cons₂ (c d : Char) (l : List Char) :
    collapseOnce (c :: d :: l) =
      if c = '/' then
        if d = '/' then '/' :: collapseOnce l else c :: collapseOnce (d :: l)
      else c :: collapseOnce (d :: l) := by
  rw [collapseOnce.eq_def]

theorem collapseOnce_cons (c : Char) (l : List Char) :
    ∃ t, collapseOnce (c :: l) = c :: t := by
  cases l with
  | nil => exact ⟨[], rfl⟩
  | cons d t =>
      rw [collapseOnce_cons₂]
      by_cases hc : c = '/'
      · by_cases hd : d = '/'
        · rw [if_pos hc, if_pos hd, hc]
          exact ⟨collapseOnce t, rfl⟩
        · rw [if_pos hc, if_neg hd]
          exact ⟨collapseOnce (d :: t), rfl⟩
      · rw [if_neg hc]
        exact ⟨collapseOnce (d :: t), rfl⟩

theorem hasSlashSlash_cons₂ (a b : Char) (l : List Char) :
    hasSlashSlash (a :: b :: l) =
      ((a == '/' && b == '/') || hasSlashSlash (b :: l)) := rfl

theorem hasDotDot_collapseOnce : ∀ l : List Char,
    hasDotDot l = false → hasDotDot (collapseOnce l) = false := by
  intro l
  induction l using collapseOnce.induct with
  | case1 => exact fun h => h
  | case2 c => exact fun h => h
  | case3 l ih =>
      intro h
      rw [collapseOnce_cons₂, if_pos rfl, if_pos rfl,
        hasDotDot_cons_ne (show ¬ '/' = '.' by decide)]
      rw [hasDotDot_cons_ne (show ¬ '/' = '.' by decide),
        hasDotDot_cons_ne (show ¬ '/' = '.' by decide)] at h
      exact ih h
  | case4 d l hd ih =>
      intro h
      rw [collapseOnce_cons₂, if_pos rfl, if_neg hd,
        hasDotDot_cons_ne (show ¬ '/' = '.' by decide)]
      rw [hasDotDot_cons_ne (show ¬ '/' = '.' by decide)] at h
      exact ih h
  | case5 c d l hc ih =>
      intro h
      rw [collapseOnce_cons₂, if_neg hc]
      by_cases hcd : c = '.'
      · subst hcd
        rw [hasDotDot_cons₂] at h
        simp only [Bool.or_eq_false_iff, Bool.and_eq_false_iff] at h
        have hdb : (d == '.') = false := by
          rcases h.1 with h1 | h1
          · exact absurd h1 (by decide)
          · exact h1
        obtain ⟨t, ht⟩ := collapseOnce_cons d l
        rw [ht, hasDotDot_cons₂]
        simp only [hdb, Bool.and_false, Bool.false_or]
        rw [← ht]
        exact ih h.2
      · rw [hasDotDot_cons_ne hcd]
        rw [hasDotDot_cons_ne hcd] at h
        exact ih h

theorem collapseOnce_length_le : ∀ l : List Char,
    (collapseOnce l).length ≤ l.length := by
  intro l
  induction l using collapseOnce.induct with
  | case1 => exact Nat.le_refl _
  | case2 c => exact Nat.le_refl _
  | case3 l ih =>
      rw [collapseOnce_cons₂, if_pos rfl, if_pos rfl]
      simp only [List.length_cons]
      omega
  | case4 d l hd ih =>
      rw [collapseOnce_cons₂, if_pos rfl, if_neg hd]
      simp only [List.length_cons] at ih ⊢
      omega
  | case5 c d l hc ih =>
      rw [collapseOnce_cons₂, if_neg hc]
      simp only [List.length_cons] at ih ⊢
      omega

theorem collapseOnce_length_lt : ∀ l : List Char, hasSlashSlash l = true →
    (collapseOnce l).length < l.length := by
  intro l
  induction l using collapseOnce.induct with
  | case1 => intro h; exact absurd h (by decide)
  | case2 c => intro h; exact absurd (show (false : Bool) = true from h) (by decide)
  | case3 l ih =>
      intro _
      rw [collapseOnce_cons₂, if_pos rfl, if_pos rfl]
      have := collapseOnce_length_le l
      simp only [List.length_cons]
      omega
  | case4 d l hd ih =>
      intro h
      rw [collapseOnce_cons₂, if_pos rfl, if_neg hd]
      rw [hasSlashSlash_cons₂] at h
      have hdb : (d == '/') = false := by simpa using hd
      simp only [hdb, Bool.and_false, Bool.false_or] at h
      have := ih h
      simp only [List.length_cons] at this ⊢
      omega
  | case5 c d l hc ih =>
      intro h
      rw [collapseOnce_cons₂, if_neg hc]
      rw [hasSlashSlash_cons₂] at h
      have hcb : (c == '/') = false := by simpa using hc
      simp only [hcb, Bool.false_and, Bool.false_or] at h
      have := ih h
      simp only [List.length_cons] at this ⊢
      omega

theorem collapseFuel_succ (n : Nat) (l : List Char) :
    collapseFuel (n + 1) l =
      if hasSlashSlash l then collapseFuel n (collapseOnce l) else l := rfl

theorem hasSlashSlash_collapseFuel : ∀ n : Nat, ∀ l : List Char,
    l.length ≤ n → hasSlashSlash (collapseFuel n l) = false := by
  intro n
  induction n with
  | zero =>
      intro l hl
      rw [List.length_eq_zero.1 (Nat.le_zero.1 hl)]
      rfl
  | succ n ih =>
      intro l hl
      rw [collapseFuel_succ]
      by_cases hss : hasSlashSlash l = true
      · rw [if_pos hss]
        exact ih _ (by have := collapseOnce_length_lt l hss; omega)
      · rw [if_neg hss]
        exact Bool.not_eq_true _ ▸ (Bool.of_not_eq_true hss)

theorem hasDotDot_collapseFuel : ∀ n : Nat, ∀ l : List Char,
    hasDotDot l = false → hasDotDot (collapseFuel n l) = false := by
  intro n
  induction n with
  | zero => exact fun l h => h
  | succ n ih =>
      intro l h
      rw [collapseFuel_succ]
      by_cases hss : hasSlashSlash l = true
      · rw [if_pos hss]
        exact ih _ (hasDotDot_collapseOnce l h)
      · rw [if_neg hss]
        exact h

theorem collapseFuel_abs : ∀ n : Nat, ∀ t : List Char,
    ∃ u, collapseFuel n ('/' :: t) = '/' :: u := by
  intro n
  induction n with
  | zero => exact fun t => ⟨t, rfl⟩
  | succ n ih =>
      intro t
      rw [collapseFuel_succ]
      by_cases hss : hasSlashSlash ('/' :: t) = true
      · rw [if_pos hss]
        obtain ⟨u, hu⟩ := collapseOnce_cons '/' t
        rw [hu]
        exact ih u
      · rw [if_neg hss]
        exact ⟨t, rfl⟩

theorem hasDotDot_sanitizePathL (l : List Char) :
    hasDotDot (sanitizePathL l) = false := by
  rw [sanitizePathL, collapseSlashes]
  exact hasDotDot_collapseFuel _ _
    (hasDotDot_ensureAbs _ (hasDotDot_removeDotDot l))

theorem sanitizePathL_abs (l : List Char) :
    ∃ t, sanitizePathL l = '/' :: t := by
  rw [sanitizePathL, collapseSlashes]
  obtain ⟨t0, ht0⟩ := ensureAbs_abs (removeDotDot l)
  rw [ht0]
  exact collapseFuel_abs _ t0

/-- C6. For every input string p, sanitizeRemotePath(p) returns a string
that contains no ".." substring and starts with "/"; in particular
sanitizeRemotePath("/tmp/../../etc/passwd") contains no ".." and starts
with "/" (its value is "/tmp/etc/passwd"). The removal of ".." substrings
never creates a new "..". -/
theorem claim6_sanitize_no_traversal (p : String) :
    (¬ ∃ a b, (SanitizePathForRemote p).data = a ++ '.' :: '.' :: b) ∧
    (∃ t, (SanitizePathForRemote p).data = '/' :: t) ∧
    SanitizePathForRemote "/tmp/../../etc/passwd" = "/tmp/etc/passwd" := by
  refine ⟨?_, sanitizePathL_abs p.data, by decide⟩
  intro hex
  have h1 := (hasDotDot_iff (sanitizePathL p.data)).2 hex
  rw [hasDotDot_sanitizePathL] at h1
  exact Bool.false_ne_true h1

/-! ### Host-key verification -/

/-- C1. Claimed: in accept-new mode the verification callback returns
success for every (hostname, key) pair that already has a matching record in
the trust file. The code does the opposite: when the underlying known-hosts
check succeeds (`err == nil`), `acceptNewKeyCallback`'s closure falls
through to the final error return (hostkey.go:119), so a known host with a
matching key is rejected with "unexpected host key verification error". -/
theorem claim1_known_matching_key_rejected :
    (acceptNewKeyCallback "/home/user/.ssh/known_hosts"
        [("example.com", "ssh-ed25519 AAAAC3key1")]
        "example.com" "ssh-ed25519 AAAAC3key1").result
      = .error "unexpected host key verification error for example.com" ∧
    (acceptNewKeyCallback "/home/user/.ssh/known_hosts"
        [("example.com", "ssh-ed25519 AAAAC3key1")]
        "example.com" "ssh-ed25519 AAAAC3key1").result ≠ .ok () := by
  refine ⟨rfl, fun h => ?_⟩
  rw [show (acceptNewKeyCallback "/home/user/.ssh/known_hosts"
      [("example.com", "ssh-ed25519 AAAAC3key1")]
      "example.com" "ssh-ed25519 AAAAC3key1").result
    = .error "unexpected host key verification error for example.com" from rfl] at h
  exact Except.noConfusion h

set_option maxRecDepth 10000 in
/-- C2. In accept-new mode, a known hostname presenting a key that differs
from every recorded key for it is rejected with an error that names the host
and the trust-file path, and the trust file is never appended to. -/
theorem claim2_changed_key_rejected (knownHostsPath : String)
    (store : List (String × String)) (hostname key : String)
    (hknown : ∃ kOld, (hostname, kOld) ∈ store)
    (hchanged : (hostname, key) ∉ store) :
    (acceptNewKeyCallback knownHostsPath store hostname key).result
        = .error (keyChangedMessage hostname knownHostsPath) ∧
    (acceptNewKeyCallback knownHostsPath store hostname key).store = store ∧
    (∃ pre post, (keyChangedMessage hostname knownHostsPath).data
        = pre ++ hostname.data ++ post) ∧
    (∃ pre post, (keyChangedMessage hostname knownHostsPath).data
        = pre ++ knownHostsPath.data ++ post) := by
  have hcheck : knownHostsCheck store hostname key = .keyChanged := by
    obtain ⟨k0, hk0⟩ := hknown
    rw [knownHostsCheck, if_neg hchanged,
      if_pos (List.any_eq_true.2 ⟨(hostname, k0), hk0, by simp⟩)]
  rw [acceptNewKeyCallback, hcheck]
  refine ⟨rfl, rfl, ?_, ?_⟩
  · refine ⟨("WARNING: REMOTE HOST IDENTIFICATION HAS CHANGED!\n" ++
      "IT IS POSSIBLE THAT SOMEONE IS DOING SOMETHING NASTY!\n" ++
      "Host key for ").data,
      (" has changed.\nRemove old key from " ++ knownHostsPath ++
       " and try again.\nOr use ssh-keygen -R " ++ hostname ++ "\n" ++
       "knownhosts: key mismatch").data, ?_⟩
    simp [keyChangedMessage]
  · refine ⟨("WARNING: REMOTE HOST IDENTIFICATION HAS CHANGED!\n" ++
      "IT IS POSSIBLE THAT SOMEONE IS DOING SOMETHING NASTY!\n" ++
      "Host key for " ++ hostname ++ " has changed.\nRemove old key from ").data,
      (" and try again.\nOr use ssh-keygen -R " ++ hostname ++ "\n" ++
       "knownhosts: key mismatch").data, ?_⟩
    simp [keyChangedMessage]

/-- Witness for C2 at a concrete trust file: host `h` is recorded with key
`k1` and presents `k2`. -/
theorem claim2_witness :
    (acceptNewKeyCallback "/home/user/.ssh/known_hosts" [("h", "k1")] "h" "k2").result
        = .error (keyChangedMessage "h" "/home/user/.ssh/known_hosts") ∧
    (acceptNewKeyCallback "/home/user/.ssh/known_hosts" [("h", "k1")] "h" "k2").store
        = [("h", "k1")] := by
  have h := claim2_changed_key_rejected "/home/user/.ssh/known_hosts"
    [("h", "k1")] "h" "k2" ⟨"k1", by decide⟩ (by decide)
  exact ⟨h.1, h.2.1⟩

/-! ### RemoveDirectory deny-list -/

/-- C7. For every path whose sanitized form is one of the six deny-listed
system directories, `RemoveDirectory` fails with "refusing to delete system
directory" and no remote command is constructed or executed; the check is
applied to the sanitized path. -/
theorem claim7_system_dir_protected (env : SSHRunEnv) (p : String)
    (hp : SanitizePathForRemote p ∈ sysDirs) :
    (RemoveDirectory env p).result
        = .error ("refusing to delete system directory: " ++ SanitizePathForRemote p) ∧
    (RemoveDirectory env p).executed = [] := by
  have h : RemoveDirectory env p =
      ⟨.error ("refusing to delete system directory: " ++ SanitizePathForRemote p),
       []⟩ := by
    rw [RemoveDirectory]
    dsimp only
    rw [if_pos hp]
  rw [h]
  exact ⟨rfl, rfl⟩

/-- Witness for C7: `removeDir("/")` and `removeDir("/etc")` both refuse
before any command is executed. -/
theorem claim7_witness :
    (RemoveDirectory okRunEnv "/").result
        = .error "refusing to delete system directory: /" ∧
    (RemoveDirectory okRunEnv "/").executed = [] ∧
    (RemoveDirectory okRunEnv "/etc").result
        = .error "refusing to delete system directory: /etc" ∧
    (RemoveDirectory okRunEnv "/etc").executed = [] := by
  have h1 := claim7_system_dir_protected okRunEnv "/" (by decide)
  have h2 := claim7_system_dir_protected okRunEnv "/etc" (by decide)
  refine ⟨?_, h1.2, ?_, h2.2⟩
  · rw [h1.1]
    exact congrArg Except.error (by decide)
  · rw [h2.1]
    exact congrArg Except.error (by decide)

/-- C10. The deny-list check is an exact comparison of the sanitized path
against the six literals: for every input whose sanitized form is any other
string, the check passes and the `rm -rf` command over the escaped sanitized
path is constructed and executed. -/
theorem claim10_non_denylisted_executes (env : SSHRunEnv) (p : String)
    (hp : SanitizePathForRemote p ∉ sysDirs) :
    (RemoveDirectory env p).executed
        = ["rm -rf " ++ ShellEscape (SanitizePathForRemote p)] := by
  rw [RemoveDirectory]
  simp only [if_neg hp]
  cases h : env.runCommand ("rm -rf " ++ ShellEscape (SanitizePathForRemote p)) with
  | error e => simp only [h]
  | ok out => simp only [h]

/-- Witness for C10: `"/etc/.."` sanitizes to the trailing-slash variant
`"/etc/"`, which is not deny-listed, so `rm -rf /etc/` is executed; the
top-level path `"/root"` is likewise not deny-listed. -/
theorem claim10_witness :
    SanitizePathForRemote "/etc/.." = "/etc/" ∧
    SanitizePathForRemote "/etc/.." ∉ sysDirs ∧
    (RemoveDirectory okRunEnv "/etc/..").executed = ["rm -rf /etc/"] ∧
    SanitizePathForRemote "/root" = "/root" ∧
    SanitizePathForRemote "/root" ∉ sysDirs ∧
    (RemoveDirectory okRunEnv "/root").executed = ["rm -rf /root"] := by
  have h1 := claim10_non_denylisted_executes okRunEnv "/etc/.." (by decide)
  have h2 := claim10_non_denylisted_executes okRunEnv "/root" (by decide)
  refine ⟨by decide, by decide, ?_, by decide, by decide, ?_⟩
  · rw [h1]; decide
  · rw [h2]; decide

/-! ### Import compensation -/

/-- C5. If populating a just-created destination volume fails, the
compensating `volume rm` is attempted, a failure of that removal is only
logged, and the error returned is the original population error regardless
of the removal outcome. -/
theorem claim5_import_compensation (env : RemoteDockerEnv)
    (volumeName archivePath : String) (e : String)
    (hvalid : ValidateVolumeName volumeName = true)
    (hcreate : ∃ out, env.createVolume = .ok out)
    (hpop : env.populateVolume = .error e) :
    (ImportVolume env volumeName archivePath).result
        = .error ("failed to import data into volume " ++ volumeName ++ ": " ++ e) ∧
    (ImportVolume env volumeName archivePath).removeAttempted = true ∧
    (∀ ce, (ImportVolume (⟨env.createVolume, env.populateVolume, .error ce⟩ :
        RemoteDockerEnv) volumeName archivePath).result
        = .error ("failed to import data into volume " ++ volumeName ++ ": " ++ e)) ∧
    (∀ ce, (ImportVolume (⟨env.createVolume, env.populateVolume, .error ce⟩ :
        RemoteDockerEnv) volumeName archivePath).logged
        = ["Failed to cleanup volume after import failure: " ++ ce]) := by
  obtain ⟨out, hout⟩ := hcreate
  have key : ∀ rm : Except String String,
      ImportVolume ⟨env.createVolume, env.populateVolume, rm⟩ volumeName archivePath
        = ⟨.error ("failed to import data into volume " ++ volumeName ++ ": " ++ e),
           true,
           match rm with
           | .error ce => ["Failed to cleanup volume after import failure: " ++ ce]
           | .ok _ => []⟩ := by
    intro rm
    rw [ImportVolume, if_pos hvalid]
    dsimp only
    rw [hout, hpop]
  have henv : ImportVolume env volumeName archivePath
      = ⟨.error ("failed to import data into volume " ++ volumeName ++ ": " ++ e),
         true,
         match env.removeVolume with
         | .error ce => ["Failed to cleanup volume after import failure: " ++ ce]
         | .ok _ => []⟩ := key env.removeVolume
  refine ⟨by rw [henv], by rw [henv], fun ce => by rw [key (.error ce)],
    fun ce => by rw [key (.error ce)]⟩

/-- Witness for C5 at a concrete oracle: creation succeeds, population fails
with `tar: short read`, removal succeeds. -/
theorem claim5_witness :
    (ImportVolume importFailEnv "data" "/tmp/stage/data.tar.gz").result
        = .error "failed to import data into volume data: tar: short read" ∧
    (ImportVolume importFailEnv "data" "/tmp/stage/data.tar.gz").removeAttempted
        = true := by
  have h := claim5_import_compensation importFailEnv "data" "/tmp/stage/data.tar.gz"
    "tar: short read" (by decide) ⟨"data", rfl⟩ rfl
  exact ⟨h.1, h.2.1⟩

/-! ### Space estimation -/

/-- The constant `buffer64` is within half an ulp of 1.1 (ulp `2^-52` in the
binade `[1, 2)`), hence it is the binary64 value nearest to the Go constant
`1.10`: the difference is `1 / (10 * 2^50) < 2^-53`. -/
theorem buffer64_closest :
    ((4953959590107546 : ℚ) / 2 ^ 52 - 11 / 10 = 1 / (10 * 2 ^ 50)) ∧
    ((1 : ℚ) / (10 * 2 ^ 50) < 1 / 2 ^ 53) ∧
    (buffer64.num : ℚ) / 2 ^ buffer64.exp = 4953959590107546 / 2 ^ 52 := by
  refine ⟨by norm_num, by norm_num, by norm_num [buffer64]⟩

set_option maxRecDepth 10000 in
/-- C9. The space estimator computes `int64(float64(size) * 1.10)` through
binary64 floating point, and at the claimed magnitude there is no rounding
loss: `requiredSpace(1_000_000) = 1_100_000` exactly (likewise the other
vectors of `TestCalculateRequiredSpace`). -/
theorem claim9_required_space_exact :
    CalculateRequiredSpace 1000000 = 1100000 ∧
    CalculateRequiredSpace 0 = 0 ∧
    CalculateRequiredSpace 1073741824 = 1181116006 ∧
    CalculateRequiredSpace 104857600 = 115343360 := by
  exact ⟨by decide, by decide, by decide, by decide⟩

/-! ### Migration cleanup semantics -/

/-- In every run, the staging cleanups are registered (and run) exactly when
the export phase succeeded and cleanup is not disabled: the deferred closure
is installed only after `exportVolumes` returns successfully
(migrator.go:292-308). -/
theorem runMigrate_cleanup_iff (env : MigrateEnv) (cfg : MigratorConfig) :
    (runMigrate env cfg).cleanupLocalRan
        = ((runMigrate env cfg).exportOk && !cfg.noCleanup) ∧
    (runMigrate env cfg).cleanupRemoteRan
        = ((runMigrate env cfg).exportOk && !cfg.noCleanup) := by
  unfold runMigrate
  repeat' split
  all_goals exact ⟨rfl, rfl⟩

/-- The result of `Migrate` never depends on the outcome of the two cleanup
steps: a cleanup failure is logged, not returned. -/
theorem runMigrate_cleanup_never_masks (env : MigrateEnv) (cfg : MigratorConfig)
    (cl cr : Except String Unit) :
    (runMigrate (setCleanup env cl cr) cfg).result = (runMigrate env cfg).result := by
  have h1 : (setCleanup env cl cr).initDocker = env.initDocker := rfl
  have h2 : (setCleanup env cl cr).connectSSH = env.connectSSH := rfl
  have h3 : (setCleanup env cl cr).discover = env.discover := rfl
  have h4 : (setCleanup env cl cr).selectVolumes = env.selectVolumes := rfl
  have h5 : (setCleanup env cl cr).exportVols = env.exportVols := rfl
  have h6 : (setCleanup env cl cr).transfer = env.transfer := rfl
  have h7 : (setCleanup env cl cr).importVols = env.importVols := rfl
  have hsv : ∀ s, spaceValidation (setCleanup env cl cr) s = spaceValidation env s :=
    fun _ => rfl
  unfold runMigrate
  simp only [h1, h2, h3, h4, h5, h6, h7, hsv]
  repeat' split
  all_goals rfl

set_option maxRecDepth 10000 in
/-- Counterexample to C3 as stated: with cleanup enabled, when the export
phase fails the function returns the export error but neither staging
cleanup runs — the deferred cleanup is registered only after a successful
export, so the "runs on every exit path" part is false for export failures. -/
theorem claim3_counterexample :
    plainConfig.noCleanup = false ∧
    (runMigrate exportFailEnv plainConfig).result
        = .error "failed to export volumes: tar: disk full" ∧
    (runMigrate exportFailEnv plainConfig).cleanupLocalRan = false ∧
    (runMigrate exportFailEnv plainConfig).cleanupRemoteRan = false :=
  ⟨rfl, rfl, rfl, rfl⟩

/-- C3 amended: with cleanup not disabled, the staging-directory cleanup
runs on every exit path taken after the export phase has succeeded (transfer
failure, import failure, or success) — but not when export itself (or any
earlier phase) failed — and a cleanup failure never replaces the primary
result of `Migrate`. -/
theorem claim3_cleanup_after_export (env : MigrateEnv) (cfg : MigratorConfig)
    (hnc : cfg.noCleanup = false)
    (hexp : (runMigrate env cfg).exportOk = true) :
    (runMigrate env cfg).cleanupLocalRan = true ∧
    (runMigrate env cfg).cleanupRemoteRan = true ∧
    ∀ cl cr, (runMigrate (setCleanup env cl cr) cfg).result
        = (runMigrate env cfg).result := by
  have h := runMigrate_cleanup_iff env cfg
  rw [hexp, hnc] at h
  exact ⟨h.1, h.2, fun cl cr => runMigrate_cleanup_never_masks env cfg cl cr⟩

set_option maxRecDepth 10000 in
/-- Witness for C3 (amended) at a concrete run whose transfer phase fails
after a successful export: both cleanups run and the result is the transfer
error. -/
theorem claim3_witness :
    plainConfig.noCleanup = false ∧
    (runMigrate transferFailEnv plainConfig).exportOk = true ∧
    (runMigrate transferFailEnv plainConfig).cleanupLocalRan = true ∧
    (runMigrate transferFailEnv plainConfig).cleanupRemoteRan = true ∧
    (runMigrate transferFailEnv plainConfig).result
        = .error "failed to transfer volumes: connection reset" := by
  have h := claim3_cleanup_after_export transferFailEnv plainConfig rfl (by rfl)
  exact ⟨rfl, by rfl, h.1, h.2.1, by rfl⟩

/-! ### Volume-discovery deduplication -/

theorem addCV_nil (env : DockerIntrospection) (c : String) (acc : List VolumeInfo) :
    addContainerVolumes env c [] acc = acc := rfl

theorem addCV_cons (env : DockerIntrospection) (c v : String)
    (vols : List String) (acc : List VolumeInfo) :
    addContainerVolumes env c (v :: vols) acc =
      addContainerVolumes env c vols
        (if v ∈ acc.map VolumeInfo.name then acc
         else acc ++ [mkVolumeInfo env c v]) := rfl

theorem mkVolumeInfo_name (env : DockerIntrospection) (c v : String) :
    (mkVolumeInfo env c v).name = v := rfl

theorem mkVolumeInfo_container (env : DockerIntrospection) (c v : String) :
    (mkVolumeInfo env c v).container = c := rfl

/-- What one container contributes: existing records are preserved, each new
record belongs to this container, carries a name from its volume list that
was not yet recorded, name-uniqueness is preserved, and afterwards every
volume of this container is recorded. -/
theorem addCV_spec (env : DockerIntrospection) (c : String) :
    ∀ (vols : List String) (acc : List VolumeInfo),
    ∃ extra,
      addContainerVolumes env c vols acc = acc ++ extra ∧
      (∀ info ∈ extra, info.container = c ∧ info.name ∈ vols ∧
          info.name ∉ acc.map VolumeInfo.name) ∧
      ((acc.map VolumeInfo.name).Nodup →
          ((acc ++ extra).map VolumeInfo.name).Nodup) ∧
      (∀ v ∈ vols, v ∈ (acc ++ extra).map VolumeInfo.name) := by
  intro vols
  induction vols with
  | nil =>
      intro acc
      refine ⟨[], ?_, by simp, ?_, by simp⟩
      · rw [addCV_nil, List.append_nil]
      · rw [List.append_nil]; exact id
  | cons v vols ih =>
      intro acc
      rw [addCV_cons]
      by_cases hv : v ∈ acc.map VolumeInfo.name
      · rw [if_pos hv]
        obtain ⟨extra, heq, hprops, hnodup, hcompl⟩ := ih acc
        refine ⟨extra, heq, ?_, hnodup, ?_⟩
        · intro info hinfo
          obtain ⟨hc, hn, hna⟩ := hprops info hinfo
          exact ⟨hc, List.mem_cons_of_mem v hn, hna⟩
        · intro w hw
          rcases List.mem_cons.1 hw with h | hw'
          · subst h
            rw [List.map_append]
            exact List.mem_append.2 (Or.inl hv)
          · exact hcompl w hw'
      · rw [if_neg hv]
        obtain ⟨extra, heq, hprops, hnodup, hcompl⟩ :=
          ih (acc ++ [mkVolumeInfo env c v])
        have hassoc : (acc ++ [mkVolumeInfo env c v]) ++ extra
            = acc ++ (mkVolumeInfo env c v :: extra) := by
          rw [List.append_assoc, List.singleton_append]
        refine ⟨mkVolumeInfo env c v :: extra, by rw [heq, hassoc], ?_, ?_, ?_⟩
        · intro info hinfo
          rcases List.mem_cons.1 hinfo with h | hinfo'
          · subst h
            exact ⟨mkVolumeInfo_container env c v,
              by rw [mkVolumeInfo_name]; exact List.mem_cons_self v vols,
              by rw [mkVolumeInfo_name]; exact hv⟩
          · obtain ⟨hc, hn, hna⟩ := hprops info hinfo'
            refine ⟨hc, List.mem_cons_of_mem v hn, fun hmem => hna ?_⟩
            rw [List.map_append]
            exact List.mem_append.2 (Or.inl hmem)
        · intro hacc
          have hmid : ((acc ++ [mkVolumeInfo env c v]).map VolumeInfo.name).Nodup := by
            rw [List.map_append]
            refine List.Nodup.append hacc (by simp) ?_
            intro a ha hb
            rw [List.map_singleton, mkVolumeInfo_name, List.mem_singleton] at hb
            subst hb
            exact hv ha
          have := hnodup hmid
          rw [hassoc] at this
          exact this
        · intro w hw
          rcases List.mem_cons.1 hw with h | hw'
          · subst h
            rw [← hassoc]
            rw [List.map_append]
            refine List.mem_append.2 (Or.inl ?_)
            rw [List.map_append, List.map_singleton, mkVolumeInfo_name]
            exact List.mem_append.2 (Or.inr (List.mem_singleton.2 rfl))
          · have := hcompl w hw'
            rw [hassoc] at this
            exact this

/-- The outer discovery loop: every record of a successful result either was
already accumulated or is owned by the first listed container whose volume
list contains its name; name-uniqueness is preserved and every listed
container's volumes end up recorded. -/
theorem getAllVolumesGo_spec (env : DockerIntrospection)
    (vols : String → List String) :
    ∀ (cs : List String) (acc : List VolumeInfo),
    (∀ c ∈ cs, env.listVolumes c = .ok (vols c)) →
    ∀ res, getAllVolumesGo env cs acc = .ok res →
    ∃ extra, res = acc ++ extra ∧
      (∀ info ∈ extra,
        info.name ∉ acc.map VolumeInfo.name ∧
        ∃ pre post, cs = pre ++ info.container :: post ∧
          info.name ∈ vols info.container ∧
          ∀ c0 ∈ pre, info.name ∉ vols c0) ∧
      ((acc.map VolumeInfo.name).Nodup → (res.map VolumeInfo.name).Nodup) ∧
      (∀ c ∈ cs, ∀ v ∈ vols c, v ∈ res.map VolumeInfo.name) := by
  intro cs
  induction cs with
  | nil =>
      intro acc _ res hres
      rw [getAllVolumesGo] at hres
      injection hres with hres
      subst hres
      exact ⟨[], by rw [List.append_nil], by simp, fun h => h, by simp⟩
  | cons c cs ih =>
      intro acc hok res hres
      rw [getAllVolumesGo, hok c (List.mem_cons_self c cs)] at hres
      dsimp only at hres
      obtain ⟨extraA, hAeq, hAprops, hAnodup, hAcompl⟩ :=
        addCV_spec env c (vols c) acc
      rw [hAeq] at hres
      obtain ⟨extraB, hBeq, hBprops, hBnodup, hBcompl⟩ :=
        ih (acc ++ extraA) (fun c0 hc0 => hok c0 (List.mem_cons_of_mem c hc0))
          res hres
      refine ⟨extraA ++ extraB, by rw [hBeq, List.append_assoc], ?_, ?_, ?_⟩
      · intro info hinfo
        rcases List.mem_append.1 hinfo with hA | hB
        · obtain ⟨hc, hn, hna⟩ := hAprops info hA
          exact ⟨hna, [], cs, by rw [hc, List.nil_append], by rw [hc]; exact hn,
            by simp⟩
        · obtain ⟨hna, pre, post, hcs, hmem, hpre⟩ := hBprops info hB
          refine ⟨?_, c :: pre, post, by rw [List.cons_append, hcs], hmem, ?_⟩
          · intro hmem0
            exact hna (by rw [List.map_append]; exact List.mem_append.2 (Or.inl hmem0))
          · intro c0 hc0
            rcases List.mem_cons.1 hc0 with h | hc0'
            · subst h
              intro hvc
              exact hna (hAcompl _ hvc)
            · exact hpre c0 hc0'
      · intro hacc
        exact hBnodup (hAnodup hacc)
      · intro c0 hc0 v hv
        rcases List.mem_cons.1 hc0 with h | hc0'
        · subst h
          have := hAcompl v hv
          rw [hBeq, List.map_append]
          exact List.mem_append.2 (Or.inl this)
        · exact hBcompl c0 hc0' v hv

/-- C8. Discovery over an ordered container list is deduplicated by volume
name: the names of the result are pairwise distinct, every record is
attributed to the first container in list order whose volume list contains
its name (later containers with the same name are skipped), and every
referenced name does appear. -/
theorem claim8_dedup_first_owner (env : DockerIntrospection)
    (vols : String → List String) (containers : List String)
    (hok : ∀ c ∈ containers, env.listVolumes c = .ok (vols c))
    (res : List VolumeInfo)
    (hres : GetAllVolumesInfo env containers = .ok res) :
    (res.map VolumeInfo.name).Nodup ∧
    (∀ info ∈ res, ∃ pre post, containers = pre ++ info.container :: post ∧
        info.name ∈ vols info.container ∧ ∀ c0 ∈ pre, info.name ∉ vols c0) ∧
    (∀ c ∈ containers, ∀ v ∈ vols c, v ∈ res.map VolumeInfo.name) := by
  obtain ⟨extra, heq, hprops, hnodup, hcompl⟩ :=
    getAllVolumesGo_spec env vols containers [] hok res hres
  rw [List.nil_append] at heq
  subst heq
  refine ⟨hnodup (by simp), ?_, hcompl⟩
  intro info hinfo
  exact (hprops info hinfo).2

/-- Witness for C8: containers `web` and `worker` both reference volume
`shared`; discovery yields exactly one record, named `shared`, owned by
`web`, and the instantiated theorem confirms uniqueness, first-owner
attribution and completeness for it. -/
theorem claim8_witness :
    GetAllVolumesInfo sharedVolEnv ["web", "worker"]
      = .ok [⟨"shared", "web", "/shared", "2.0GB", 2147483648, true⟩] ∧
    (([(⟨"shared", "web", "/shared", "2.0GB", 2147483648, true⟩ : VolumeInfo)].map
        VolumeInfo.name).Nodup ∧
     (∀ info ∈ [(⟨"shared", "web", "/shared", "2.0GB", 2147483648, true⟩ :
          VolumeInfo)],
        ∃ pre post, (["web", "worker"] : List String)
            = pre ++ info.container :: post ∧
          info.name ∈ (fun _ => ["shared"]) info.container ∧
          ∀ c0 ∈ pre, info.name ∉ (fun _ => ["shared"]) c0) ∧
     (∀ c ∈ (["web", "worker"] : List String), ∀ v ∈ (fun _ => ["shared"]) c,
        v ∈ [(⟨"shared", "web", "/shared", "2.0GB", 2147483648, true⟩ :
          VolumeInfo)].map VolumeInfo.name)) := by
  have hconc : GetAllVolumesInfo sharedVolEnv ["web", "worker"]
      = .ok [⟨"shared", "web", "/shared", "2.0GB", 2147483648, true⟩] := rfl
  exact ⟨hconc, claim8_dedup_first_owner sharedVolEnv (fun _ => ["shared"])
    ["web", "worker"] (fun _ _ => rfl) _ hconc⟩

end VolumeMigration
